import Mathlib

/-!
# Verification of `githubService.ts` (github-dev-dashboard)

Shallow embedding of the repository-identity resolver (`getRepositoryInfo`)
and of the two PR-checkout routines (`checkoutPR`,
`checkoutPRGitHubStyle`) of `src/githubService.ts`, together with proofs
of the specification claims about them.

The resolver's two JavaScript regular expressions

  * R1: `github.com[:/]([^/]+)\/([^/\s]+?)(?:\.git)?[\s\t]`
  * R2: `([^@\s]+)[@:]([^/]+)\/([^/\s]+?)(?:\.git)?[\s\t]`

are hand-compiled into backtracking matchers over `List Char`, following
JavaScript semantics: leftmost match, greedy `+`, lazy `+?`, greedy
optional group, with `\s` the JavaScript whitespace class and `.` (an
unescaped dot in the source pattern) matching any non-line-terminator.
-/

deriving instance DecidableEq for Except

/-- JavaScript `\s` character class (whitespace, as used by the regexes). -/
def jsWs (c : Char) : Bool :=
  c == ' ' || c == '\t' || c == '\n' || c == '\r' || c == '\x0b' || c == '\x0c' ||
  c == '\u00a0' || c == '\u1680' ||
  (decide ('\u2000' ≤ c) && decide (c ≤ '\u200a')) ||
  c == '\u2028' || c == '\u2029' || c == '\u202f' || c == '\u205f' ||
  c == '\u3000' || c == '\ufeff'

/-- JavaScript `.` in a regex: any character except a line terminator. -/
def dotAny (c : Char) : Bool :=
  !(c == '\n' || c == '\r' || c == '\u2028' || c == '\u2029')

/-- JavaScript `String.prototype.includes` on character lists. -/
def containsSubstr (needle : List Char) : List Char → Bool
  | [] => needle.isEmpty
  | c :: rest => needle.isPrefixOf (c :: rest) || containsSubstr needle rest

/-- First `some` produced by `f` along a list, in order. -/
def firstSome (f : α → Option β) : List α → Option β
  | [] => none
  | a :: rest =>
    match f a with
    | some b => some b
    | none => firstSome f rest

/-- JavaScript `String.prototype.split` with a one-character separator
(`"a:".split(':') = ["a",""]`, `"".split(':') = [""]`). -/
def jsSplit (sep : Char) : List Char → List (List Char)
  | [] => [[]]
  | c :: rest =>
    if c = sep then [] :: jsSplit sep rest
    else
      match jsSplit sep rest with
      | t :: ts => (c :: t) :: ts
      | [] => [[c]]

/-- The suffix of a list after its last occurrence of `sep` (the whole list
when `sep` does not occur): the "last `sep`-delimited token" of the spec. -/
def lastTok (sep : Char) : List Char → List Char
  | [] => []
  | c :: rest =>
    if rest.contains sep then lastTok sep rest
    else if c = sep then rest
    else c :: rest

/-- After a `.` was consumed: the rest of `(?:\.git)?[\s\t]`, i.e. `git`
followed by one whitespace character. -/
def dotGitTail : List Char → Bool
  | 'g' :: 'i' :: 't' :: w :: _ => jsWs w
  | _ => false

/-- Matches the regex tail `(?:\.git)?[\s\t]` against a prefix of the input:
greedily try to consume `.git`, then require one whitespace character
(when the head is `.` but `git`+whitespace does not follow, the ungreedy
alternative `[\s\t]` fails on `.` as well, so `false` is correct). -/
def tailExit : List Char → Bool
  | [] => false
  | c :: cs => if c = '.' then dotGitTail cs else jsWs c

/-- The lazy group `([^/\s]+?)` followed by `(?:\.git)?[\s\t]`: the shortest
nonempty prefix of class characters whose remaining input satisfies
`tailExit`. Returns the captured characters. -/
def group3 : List Char → Option (List Char)
  | [] => none
  | c :: cs =>
    if c = '/' || jsWs c then none
    else if tailExit cs then some [c]
    else
      match group3 cs with
      | some g => some (c :: g)
      | none => none

/-- Attempt of regex R1 (`github.com[:/]([^/]+)\/([^/\s]+?)(?:\.git)?[\s\t]`)
anchored at the head of the input; returns the two captures. The greedy
group `([^/]+)` followed by the literal `/` is deterministic: it must be
exactly the maximal run of non-`/` characters. -/
def matchR1At : List Char → Option (List Char × List Char)
  | 'g' :: 'i' :: 't' :: 'h' :: 'u' :: 'b' :: d :: 'c' :: 'o' :: 'm' :: s :: rest =>
    if dotAny d && (s == ':' || s == '/') then
      let g1 := rest.takeWhile (fun x => x != '/')
      if g1.isEmpty then none
      else
        match rest.drop g1.length with
        | '/' :: rest2 =>
          match group3 rest2 with
          | some g3 => some (g1, g3)
          | none => none
        | _ => none
    else none
  | _ => none

/-- Leftmost match of R1 in the input (JavaScript `String.match` without
the global flag). -/
def findR1 : List Char → Option (List Char × List Char)
  | [] => none
  | c :: rest =>
    match matchR1At (c :: rest) with
    | some r => some r
    | none => findR1 rest

/-- The part of R2 after the `[@:]` separator:
`([^/]+)\/([^/\s]+?)(?:\.git)?[\s\t]`, returning (segment, repo) captures. -/
def r2Tail (cs : List Char) : Option (List Char × List Char) :=
  let g2 := cs.takeWhile (fun x => x != '/')
  if g2.isEmpty then none
  else
    match cs.drop g2.length with
    | '/' :: rest2 => (group3 rest2).map (fun g3 => (g2, g3))
    | _ => none

/-- Backtracking candidates for the greedy group `([^@\s]+)` followed by
`[@:]`: all splits (capture, remaining input after the separator), longest
capture first, exactly the order a JavaScript engine tries them. -/
def r2Cands (acc : List Char) : List Char → List (List Char × List Char)
  | [] => []
  | c :: rest =>
    if c = '@' then (if acc.isEmpty then [] else [(acc, rest)])
    else if jsWs c then []
    else if c = ':' then
      r2Cands (acc ++ [c]) rest ++ (if acc.isEmpty then [] else [(acc, rest)])
    else r2Cands (acc ++ [c]) rest

/-- Attempt of regex R2 (`([^@\s]+)[@:]([^/]+)\/([^/\s]+?)(?:\.git)?[\s\t]`)
anchored at the head of the input; returns the three captures. -/
def matchR2At (cs : List Char) : Option (List Char × List Char × List Char) :=
  firstSome (fun p => (r2Tail p.2).map (fun q => (p.1, q.1, q.2))) (r2Cands [] cs)

/-- Leftmost match of R2 in the input. -/
def findR2 : List Char → Option (List Char × List Char × List Char)
  | [] => none
  | c :: rest =>
    match matchR2At (c :: rest) with
    | some r => some r
    | none => findR2 rest

/-- `RepositoryInfo` of `githubService.ts`. -/
structure RepositoryInfo where
  owner : String
  repo : String
deriving DecidableEq

/-- The owner computed from R2's second capture:
`match[2].split(':').pop() || match[2]` from the source. -/
def ownerOfSegment (seg : List Char) : List Char :=
  let lastPopped := (jsSplit ':' seg).getLastD []
  if lastPopped.isEmpty then seg else lastPopped

/-- The remote-scanning loop of `getRepositoryInfo` (lines 65–96): for each
fetch remote line, try R1 (return its captures directly), else R2 (return
owner/repo if the captured "host" — actually the text before the `@`/`:`
separator — has no dot and does not contain `gitlab` or `bitbucket`),
else continue with the next line. -/
def resolveRemoteLines : List (List Char) → Option RepositoryInfo
  | [] => none
  | line :: rest =>
    match findR1 line with
    | some (g1, g3) => some ⟨g1.asString, g3.asString⟩
    | none =>
      match findR2 line with
      | some (host, seg, repoCap) =>
        if !(containsSubstr ['.'] host) && !(containsSubstr "gitlab".toList host) &&
           !(containsSubstr "bitbucket".toList host) then
          some ⟨(ownerOfSegment seg).asString, repoCap.asString⟩
        else resolveRemoteLines rest
      | none => resolveRemoteLines rest

/-- Split the `git remote -v` output on newlines and keep the lines that
contain `(fetch)` (lines 61–63 of the source). -/
def remoteFetchLines (out : String) : List (List Char) :=
  (jsSplit '\n' out.toList).filter (fun l => containsSubstr "(fetch)".toList l)

/-- Environment of `getRepositoryInfo`: whether `git rev-parse --git-dir`
succeeds, and the result of `git remote -v` (`Except.error` models the
child process throwing). -/
structure GitEnv where
  revParseOk : Bool
  remotes : Except Unit String

/-- The body of `getRepositoryInfo` (the outer `try` block, lines 42–99):
the inner try/catch around `git rev-parse` returns null when the path is
not a git repository; a failing `git remote -v` throws. -/
def getRepositoryInfoBody (env : GitEnv) : Except Unit (Option RepositoryInfo) :=
  if env.revParseOk = false then .ok none
  else
    match env.remotes with
    | .error e => .error e
    | .ok out => .ok (resolveRemoteLines (remoteFetchLines out))

/-- `getRepositoryInfo` (lines 40–104): the outer catch converts any
exception into a null result. -/
def getRepositoryInfo (env : GitEnv) : Except Unit (Option RepositoryInfo) :=
  match getRepositoryInfoBody env with
  | .ok r => .ok r
  | .error _ => .ok none

/-! ## PR checkout (`checkoutPR` and `checkoutPRGitHubStyle`)

Both routines are embedded from the point where the pull request has been
retrieved (`pr.head.*` fields). Each `execSync` call is recorded in a
trace of command strings; an `ExecEnv` says which command strings fail
(an `execSync` throw), which drives the source's try/catch fallbacks.
`none` for `headRepoFullName`/`headCloneUrl`/`headOwnerLogin` models
`pr.head.repo` being `null` (deleted source repository), in which case
`pr.head.repo?.clone_url` is `undefined` and a JavaScript template
literal interpolates it as the string `"undefined"`. -/

/-- The PR head fields used by the checkout routines. -/
structure PRHead where
  number : Nat
  headRef : String
  headRepoFullName : Option String
  headCloneUrl : Option String
  headOwnerLogin : Option String
deriving DecidableEq

/-- The string `"{owner}/{repo}"` the head repository is compared against. -/
def fullRepoName (ri : RepositoryInfo) : String :=
  ri.owner ++ "/" ++ ri.repo

/-- JavaScript template-literal interpolation of a possibly-undefined
string value. -/
def jsTemplateOpt : Option String → String
  | some s => s
  | none => "undefined"

/-- Which `execSync` invocations throw, by command string. -/
structure ExecEnv where
  fails : String → Bool

/-- Environment in which every git command succeeds. -/
def envOk : ExecEnv := ⟨fun _ => false⟩

/-- `checkoutPR` line 698: `origin` for a same-repo PR, otherwise the
fixed remote name `pr-remote`. -/
def stdRemoteName (ri : RepositoryInfo) (pr : PRHead) : String :=
  if pr.headRepoFullName = some (fullRepoName ri) then "origin" else "pr-remote"

/-- `checkoutPR` line 721: the local branch name `pr-{number}-{headRef}`,
used for same-repo and fork PRs alike. -/
def stdLocalBranch (pr : PRHead) : String :=
  "pr-" ++ toString pr.number ++ "-" ++ pr.headRef

/-- `git remote add` command of `checkoutPR` (line 704). -/
def stdAddCmd (ri : RepositoryInfo) (pr : PRHead) : String :=
  "git remote add " ++ stdRemoteName ri pr ++ " " ++ jsTemplateOpt pr.headCloneUrl

/-- `git remote set-url` command of `checkoutPR` (line 709). -/
def stdSetCmd (ri : RepositoryInfo) (pr : PRHead) : String :=
  "git remote set-url " ++ stdRemoteName ri pr ++ " " ++ jsTemplateOpt pr.headCloneUrl

/-- `git fetch` command of `checkoutPR` (line 716). -/
def stdFetchCmd (ri : RepositoryInfo) (pr : PRHead) : String :=
  "git fetch " ++ stdRemoteName ri pr ++ " " ++ pr.headRef

/-- `git checkout -b` command of `checkoutPR` (line 725). -/
def stdCreateCmd (ri : RepositoryInfo) (pr : PRHead) : String :=
  "git checkout -b " ++ stdLocalBranch pr ++ " " ++ stdRemoteName ri pr ++ "/" ++ pr.headRef

/-- Fallback `git checkout` command of `checkoutPR` (line 731). -/
def stdCoCmd (pr : PRHead) : String :=
  "git checkout " ++ stdLocalBranch pr

/-- `checkoutPR` (lines 696–742): remote upsert for fork PRs (add, on
failure set-url, whose failure propagates), fetch, then try to create the
local branch and on failure plainly check it out (no reset). Returns the
trace of attempted git commands and the outcome. -/
def checkoutPR (ri : RepositoryInfo) (pr : PRHead) (env : ExecEnv) :
    List String × Except Unit Unit :=
  let upsert : List String × Except Unit Unit :=
    if stdRemoteName ri pr = "pr-remote" then
      if env.fails (stdAddCmd ri pr) then
        if env.fails (stdSetCmd ri pr) then ([stdAddCmd ri pr, stdSetCmd ri pr], .error ())
        else ([stdAddCmd ri pr, stdSetCmd ri pr], .ok ())
      else ([stdAddCmd ri pr], .ok ())
    else ([], .ok ())
  match upsert with
  | (t, .error e) => (t, .error e)
  | (t, .ok _) =>
    if env.fails (stdFetchCmd ri pr) then (t ++ [stdFetchCmd ri pr], .error ())
    else if env.fails (stdCreateCmd ri pr) then
      if env.fails (stdCoCmd pr) then
        (t ++ [stdFetchCmd ri pr, stdCreateCmd ri pr, stdCoCmd pr], .error ())
      else (t ++ [stdFetchCmd ri pr, stdCreateCmd ri pr, stdCoCmd pr], .ok ())
    else (t ++ [stdFetchCmd ri pr, stdCreateCmd ri pr], .ok ())

/-- `checkoutPRGitHubStyle` line 465/492: remote name and local branch
name are both `pr-{number}` for a fork PR. -/
def ghRemoteName (pr : PRHead) : String :=
  "pr-" ++ toString pr.number

/-- Local branch created by the github-style checkout for a fork PR
(line 492). -/
def ghLocalBranch (pr : PRHead) : String :=
  "pr-" ++ toString pr.number

/-- `targetBranchName` of `checkoutPRGitHubStyle` (lines 447–455): the
`{login}:{branch}` display string; it is only passed to the debug log,
never to a git command. -/
def ghTargetBranchName (ri : RepositoryInfo) (pr : PRHead) : String :=
  if pr.headRepoFullName = some (fullRepoName ri) then pr.headRef
  else jsTemplateOpt pr.headOwnerLogin ++ ":" ++ pr.headRef

/-- `remoteUrl` of the github-style fork path: `pr.head.repo?.clone_url || ''`. -/
def ghRemoteUrl (pr : PRHead) : String :=
  pr.headCloneUrl.getD ""

/-- `git remote add` command of the github-style fork path (line 467). -/
def ghAddCmd (pr : PRHead) : String :=
  "git remote add " ++ ghRemoteName pr ++ " " ++ ghRemoteUrl pr

/-- `git remote set-url` command of the github-style fork path (line 475). -/
def ghSetCmd (pr : PRHead) : String :=
  "git remote set-url " ++ ghRemoteName pr ++ " " ++ ghRemoteUrl pr

/-- `git fetch` command of the github-style fork path (line 486). -/
def ghFetchCmd (pr : PRHead) : String :=
  "git fetch " ++ ghRemoteName pr ++ " " ++ pr.headRef

/-- `git checkout -b` command of the github-style fork path (line 494). -/
def ghCreateCmd (pr : PRHead) : String :=
  "git checkout -b " ++ ghLocalBranch pr ++ " " ++ ghRemoteName pr ++ "/" ++ pr.headRef

/-- Fallback `git checkout` command of the github-style fork path (line 501). -/
def ghCoCmd (pr : PRHead) : String :=
  "git checkout " ++ ghLocalBranch pr

/-- Force reset of the github-style fork path (line 505). -/
def ghResetCmd (pr : PRHead) : String :=
  "git reset --hard " ++ ghRemoteName pr ++ "/" ++ pr.headRef

/-- `git fetch origin {branch}` of the github-style same-repo path (line 513). -/
def ghSameFetchCmd (pr : PRHead) : String :=
  "git fetch origin " ++ pr.headRef

/-- `git checkout {branch}` of the github-style same-repo path (line 519). -/
def ghSameCoCmd (pr : PRHead) : String :=
  "git checkout " ++ pr.headRef

/-- `git checkout -b {branch} origin/{branch}` of the github-style
same-repo path (line 526). -/
def ghSameCreateCmd (pr : PRHead) : String :=
  "git checkout -b " ++ pr.headRef ++ " origin/" ++ pr.headRef

/-- `checkoutPRGitHubStyle` (lines 447–532). Fork path: remote upsert
whose failures are both swallowed (warn only), fetch, create the local
branch `pr-{number}`, and on creation failure check it out and force-reset
it to `pr-{number}/{headRef}`. Same-repo path: fetch from origin, check
the branch out, and on failure create it as a tracking branch. -/
def checkoutPRGitHubStyle (ri : RepositoryInfo) (pr : PRHead) (env : ExecEnv) :
    List String × Except Unit Unit :=
  if pr.headRepoFullName = some (fullRepoName ri) then
    if env.fails (ghSameFetchCmd pr) then ([ghSameFetchCmd pr], .error ())
    else if env.fails (ghSameCoCmd pr) then
      if env.fails (ghSameCreateCmd pr) then
        ([ghSameFetchCmd pr, ghSameCoCmd pr, ghSameCreateCmd pr], .error ())
      else ([ghSameFetchCmd pr, ghSameCoCmd pr, ghSameCreateCmd pr], .ok ())
    else ([ghSameFetchCmd pr, ghSameCoCmd pr], .ok ())
  else
    let upsertTrace := if env.fails (ghAddCmd pr) then [ghAddCmd pr, ghSetCmd pr] else [ghAddCmd pr]
    if env.fails (ghFetchCmd pr) then (upsertTrace ++ [ghFetchCmd pr], .error ())
    else if env.fails (ghCreateCmd pr) then
      if env.fails (ghCoCmd pr) then
        (upsertTrace ++ [ghFetchCmd pr, ghCreateCmd pr, ghCoCmd pr], .error ())
      else if env.fails (ghResetCmd pr) then
        (upsertTrace ++ [ghFetchCmd pr, ghCreateCmd pr, ghCoCmd pr, ghResetCmd pr], .error ())
      else (upsertTrace ++ [ghFetchCmd pr, ghCreateCmd pr, ghCoCmd pr, ghResetCmd pr], .ok ())
    else (upsertTrace ++ [ghFetchCmd pr, ghCreateCmd pr], .ok ())

/-- The line `origin\thttps://github.com/{owner}/{repo}.git (fetch)` as a
character list, with symbolic owner and repo. -/
def githubFetchLine (o r : List Char) : List Char :=
  "origin\thttps://github.com/".toList ++ (o ++ '/' :: (r ++ ".git (fetch)".toList))

/-! ## Helper lemmas -/

theorem takeWhile_append_pos (p : Char → Bool) (xs : List Char) (y : Char) (ys : List Char)
    (hxs : ∀ c ∈ xs, p c = true) (hy : p y = false) :
    (xs ++ y :: ys).takeWhile p = xs := by
  induction xs with
  | nil => simp [List.takeWhile_cons, hy]
  | cons a l ih =>
    have ha : p a = true := hxs a (by simp)
    simp only [List.cons_append, List.takeWhile_cons, ha, if_true]
    rw [ih (fun c hc => hxs c (by simp [hc]))]

theorem tailExit_not_dot (c : Char) (zs : List Char) (h : c ≠ '.') :
    tailExit (c :: zs) = jsWs c := by
  simp only [tailExit, if_neg h]

theorem group3_append_git (r : List Char) (hr : r ≠ [])
    (hcl : ∀ c ∈ r, c ≠ '/' ∧ jsWs c = false ∧ c ≠ '.')
    (w : Char) (hw : jsWs w = true) (zs : List Char) :
    group3 (r ++ '.' :: 'g' :: 'i' :: 't' :: w :: zs) = some r := by
  induction r with
  | nil => exact absurd rfl hr
  | cons a l ih =>
    obtain ⟨ha1, ha2, ha3⟩ := hcl a (by simp)
    simp only [List.cons_append, group3]
    rw [if_neg (by simp [ha1, ha2])]
    cases l with
    | nil =>
      rw [if_pos (by simp [List.nil_append, tailExit, dotGitTail, hw])]
    | cons b m =>
      obtain ⟨hb1, hb2, hb3⟩ := hcl b (by simp)
      simp only [List.append_eq, List.cons_append]
      rw [if_neg (by rw [tailExit_not_dot b _ hb3, hb2]; exact Bool.false_ne_true)]
      simp only [List.cons_append] at ih
      rw [ih (by simp) (fun c hc => hcl c (by simp [hc]))]

theorem matchR1At_github (o r : List Char) (ho : o ≠ []) (ho2 : ∀ c ∈ o, c ≠ '/')
    (hr : r ≠ []) (hr2 : ∀ c ∈ r, c ≠ '/' ∧ jsWs c = false ∧ c ≠ '.') :
    matchR1At ('g' :: 'i' :: 't' :: 'h' :: 'u' :: 'b' :: '.' :: 'c' :: 'o' :: 'm' :: '/' ::
      (o ++ '/' :: (r ++ ".git (fetch)".toList))) = some (o, r) := by
  simp only [matchR1At]
  rw [if_pos (by decide)]
  have htw : (o ++ '/' :: (r ++ ".git (fetch)".toList)).takeWhile (fun x => x != '/') = o := by
    refine takeWhile_append_pos _ o '/' _ (fun c hc => ?_) (by decide)
    simp [bne_iff_ne, ho2 c hc]
  simp only [htw]
  rw [if_neg (by simp [List.isEmpty_iff, ho])]
  rw [List.drop_left o _]
  have hg3 : group3 (r ++ '.' :: 'g' :: 'i' :: 't' :: ' ' :: ['(', 'f', 'e', 't', 'c', 'h', ')']) =
      some r := group3_append_git r hr hr2 ' ' (by decide) ['(', 'f', 'e', 't', 'c', 'h', ')']
  simp only [show (".git (fetch)".toList : List Char) =
    '.' :: 'g' :: 'i' :: 't' :: ' ' :: ['(', 'f', 'e', 't', 'c', 'h', ')'] from rfl]
  rw [hg3]

theorem findR1_githubFetchLine (o r : List Char) (ho : o ≠ []) (ho2 : ∀ c ∈ o, c ≠ '/')
    (hr : r ≠ []) (hr2 : ∀ c ∈ r, c ≠ '/' ∧ jsWs c = false ∧ c ≠ '.') :
    findR1 (githubFetchLine o r) = some (o, r) := by
  show findR1 ('g' :: 'i' :: 't' :: 'h' :: 'u' :: 'b' :: '.' :: 'c' :: 'o' :: 'm' :: '/' ::
      (o ++ '/' :: (r ++ ".git (fetch)".toList))) = some (o, r)
  simp only [findR1]
  rw [matchR1At_github o r ho ho2 hr hr2]

theorem group3_ne_nil (cs : List Char) (g : List Char) (h : group3 cs = some g) : g ≠ [] := by
  induction cs generalizing g with
  | nil => simp [group3] at h
  | cons c cs ih =>
    simp only [group3] at h
    split at h
    · exact absurd h (by simp)
    · split at h
      · injection h with h; subst h; simp
      · split at h
        · injection h with h; subst h; simp
        · exact absurd h (by simp)

theorem firstSome_mem {α β : Type} {f : α → Option β} {l : List α} {b : β}
    (h : firstSome f l = some b) : ∃ a ∈ l, f a = some b := by
  induction l with
  | nil => simp [firstSome] at h
  | cons a l ih =>
    simp only [firstSome] at h
    split at h
    · exact ⟨a, by simp, by rename_i heq; rw [heq]; exact h⟩
    · obtain ⟨a', ha', hfa'⟩ := ih h
      exact ⟨a', by simp [ha'], hfa'⟩

theorem r2Cands_fst_ne_nil (cs : List Char) :
    ∀ acc g1 rest, (g1, rest) ∈ r2Cands acc cs → g1 ≠ [] := by
  induction cs with
  | nil => intro acc g1 rest h; simp [r2Cands] at h
  | cons c cs ih =>
    intro acc g1 rest h
    simp only [r2Cands] at h
    split at h
    · split at h
      · simp at h
      · rename_i hne
        simp at h
        obtain ⟨h1, _⟩ := h
        subst h1
        simpa [List.isEmpty_iff] using hne
    · split at h
      · simp at h
      · split at h
        · rw [List.mem_append] at h
          cases h with
          | inl h => exact ih _ _ _ h
          | inr h =>
            split at h
            · simp at h
            · rename_i hne
              simp at h
              obtain ⟨h1, _⟩ := h
              subst h1
              simpa [List.isEmpty_iff] using hne
        · exact ih _ _ _ h

theorem r2Tail_caps (cs g2 g3 : List Char) (h : r2Tail cs = some (g2, g3)) :
    g2 ≠ [] ∧ g3 ≠ [] := by
  simp only [r2Tail] at h
  split at h
  · simp at h
  · rename_i hne
    split at h
    · simp only [Option.map_eq_some'] at h
      obtain ⟨g, hg, heq⟩ := h
      injection heq with e1 e2
      subst e1; subst e2
      exact ⟨by simpa [List.isEmpty_iff] using hne, group3_ne_nil _ _ hg⟩
    · simp at h

theorem matchR2At_caps (cs host seg repoCap : List Char)
    (h : matchR2At cs = some (host, seg, repoCap)) :
    host ≠ [] ∧ seg ≠ [] ∧ repoCap ≠ [] := by
  obtain ⟨p, hp, hfp⟩ := firstSome_mem h
  simp only [Option.map_eq_some'] at hfp
  obtain ⟨q, hq, heq⟩ := hfp
  injection heq with e1 e2
  subst e1
  injection e2 with e2 e3
  obtain ⟨h2, h3⟩ := r2Tail_caps p.2 q.1 q.2 (by rw [hq])
  subst e2; subst e3
  exact ⟨r2Cands_fst_ne_nil cs [] p.1 p.2 (by simpa using hp), h2, h3⟩

theorem findR2_caps (cs host seg repoCap : List Char)
    (h : findR2 cs = some (host, seg, repoCap)) : host ≠ [] ∧ seg ≠ [] ∧ repoCap ≠ [] := by
  induction cs with
  | nil => simp [findR2] at h
  | cons c cs ih =>
    simp only [findR2] at h
    split at h
    · rename_i heq
      injection h with h
      subst h
      exact matchR2At_caps _ _ _ _ heq
    · exact ih h

theorem matchR1At_caps (cs g1 g3 : List Char) (h : matchR1At cs = some (g1, g3)) :
    g1 ≠ [] ∧ g3 ≠ [] := by
  unfold matchR1At at h
  split at h
  · split at h
    · rename_i hcond
      dsimp only at h
      split at h
      · simp at h
      · rename_i hne
        split at h
        · split at h
          · injection h with h
            injection h with e1 e2
            subst e1; subst e2
            exact ⟨by simpa [List.isEmpty_iff] using hne, group3_ne_nil _ _ (by assumption)⟩
          · simp at h
        · simp at h
    · simp at h
  · simp at h

theorem findR1_caps (cs g1 g3 : List Char) (h : findR1 cs = some (g1, g3)) :
    g1 ≠ [] ∧ g3 ≠ [] := by
  induction cs with
  | nil => simp [findR1] at h
  | cons c cs ih =>
    simp only [findR1] at h
    split at h
    · rename_i heq
      injection h with h
      subst h
      exact matchR1At_caps _ _ _ heq
    · exact ih h

theorem ownerOfSegment_ne_nil (seg : List Char) (h : seg ≠ []) : ownerOfSegment seg ≠ [] := by
  unfold ownerOfSegment
  dsimp only
  split
  · exact h
  · rename_i hne
    simpa [List.isEmpty_iff] using hne

theorem asString_ne_empty (l : List Char) (h : l ≠ []) : l.asString ≠ "" := by
  intro he
  exact h (congrArg String.data he)

theorem resolveRemoteLines_fields (lines : List (List Char)) (info : RepositoryInfo)
    (h : resolveRemoteLines lines = some info) : info.owner ≠ "" ∧ info.repo ≠ "" := by
  induction lines with
  | nil => simp [resolveRemoteLines] at h
  | cons line rest ih =>
    simp only [resolveRemoteLines] at h
    split at h
    · rename_i g1 g3 heq
      injection h with h
      subst h
      obtain ⟨h1, h3⟩ := findR1_caps _ _ _ heq
      exact ⟨asString_ne_empty _ h1, asString_ne_empty _ h3⟩
    · split at h
      · rename_i host seg repoCap heq
        split at h
        · injection h with h
          subst h
          obtain ⟨_, h2, h3⟩ := findR2_caps _ _ _ _ heq
          exact ⟨asString_ne_empty _ (ownerOfSegment_ne_nil _ h2), asString_ne_empty _ h3⟩
        · exact ih h
      · exact ih h

theorem jsSplit_ne_nil (sep : Char) (cs : List Char) : jsSplit sep cs ≠ [] := by
  induction cs with
  | nil => simp [jsSplit]
  | cons c cs ih =>
    simp only [jsSplit]
    split
    · simp
    · split
      · simp
      · simp

theorem jsSplit_eq_singleton (sep : Char) (cs : List Char) (t : List Char)
    (h : jsSplit sep cs = [t]) : cs.contains sep = false ∧ t = cs := by
  induction cs generalizing t with
  | nil =>
    simp only [jsSplit] at h
    injection h with h1 _
    subst h1
    exact ⟨rfl, rfl⟩
  | cons c cs ih =>
    simp only [jsSplit] at h
    by_cases hc : c = sep
    · rw [if_pos hc] at h
      injection h with h1 h2
      exact absurd h2 (jsSplit_ne_nil sep cs)
    · rw [if_neg hc] at h
      cases heq : jsSplit sep cs with
      | nil => exact absurd heq (jsSplit_ne_nil sep cs)
      | cons t0 ts0 =>
        rw [heq] at h
        dsimp only at h
        injection h with h1 h2
        subst h2
        obtain ⟨hnc, ht⟩ := ih t0 heq
        subst ht
        constructor
        · rw [List.contains_cons, Bool.or_eq_false_iff]
          exact ⟨beq_eq_false_iff_ne.mpr (fun he => hc he.symm), hnc⟩
        · exact h1.symm

theorem jsSplit_singleton_of_not_contains (sep : Char) (cs : List Char)
    (h : cs.contains sep = false) : jsSplit sep cs = [cs] := by
  induction cs with
  | nil => rfl
  | cons c cs ih =>
    rw [List.contains_cons, Bool.or_eq_false_iff] at h
    obtain ⟨h1, h2⟩ := h
    simp only [jsSplit]
    rw [if_neg (fun he => (beq_eq_false_iff_ne.mp h1) he.symm), ih h2]

theorem lastTok_of_not_contains (sep : Char) (cs : List Char) (h : cs.contains sep = false) :
    lastTok sep cs = cs := by
  cases cs with
  | nil => rfl
  | cons c rest =>
    rw [List.contains_cons, Bool.or_eq_false_iff] at h
    obtain ⟨h1, h2⟩ := h
    simp only [lastTok]
    rw [if_neg (by simp only [h2]; decide), if_neg (fun he => (beq_eq_false_iff_ne.mp h1) he.symm)]

theorem getLastD_irrel {α : Type} (l : List α) (d d' : α) (h : l ≠ []) :
    l.getLastD d = l.getLastD d' := by
  cases l with
  | nil => exact absurd rfl h
  | cons a l => rw [List.getLastD_cons, List.getLastD_cons]

theorem getLastD_cons_of_ne_nil {α : Type} (x : α) (l : List α) (d : α) (h : l ≠ []) :
    (x :: l).getLastD d = l.getLastD d := by
  rw [List.getLastD_cons]
  exact getLastD_irrel l x d h

theorem jsSplit_getLastD (sep : Char) (cs : List Char) :
    (jsSplit sep cs).getLastD [] = lastTok sep cs := by
  induction cs with
  | nil => rfl
  | cons c cs ih =>
    by_cases hc : c = sep
    · subst hc
      simp only [jsSplit, lastTok, eq_self_iff_true, if_true]
      rw [getLastD_cons_of_ne_nil _ _ _ (jsSplit_ne_nil c cs), ih]
      by_cases hcont : cs.contains c = true
      · rw [if_pos hcont]
      · rw [if_neg hcont, lastTok_of_not_contains c cs (by simpa using hcont)]
    · cases heq : jsSplit sep cs with
      | nil => exact absurd heq (jsSplit_ne_nil sep cs)
      | cons t ts =>
        simp only [jsSplit, if_neg hc, heq, lastTok]
        cases ts with
        | nil =>
          obtain ⟨hnc, ht⟩ := jsSplit_eq_singleton sep cs t heq
          subst ht
          rw [if_neg (by simp only [hnc]; decide)]
          rfl
        | cons t2 ts2 =>
          have hcont : cs.contains sep = true := by
            by_contra hq
            rw [jsSplit_singleton_of_not_contains sep cs (by simpa using hq)] at heq
            injection heq with e1 e2
            exact (by simp : (t2 :: ts2 : List (List Char)) ≠ []) e2.symm
          rw [if_pos hcont, ← ih, heq]
          rw [getLastD_cons_of_ne_nil (c :: t) (t2 :: ts2) [] (by simp),
              getLastD_cons_of_ne_nil t (t2 :: ts2) [] (by simp)]

theorem ownerOfSegment_lastTok (seg : List Char) :
    ownerOfSegment seg = if lastTok ':' seg = [] then seg else lastTok ':' seg := by
  unfold ownerOfSegment
  dsimp only
  rw [jsSplit_getLastD]
  by_cases h : lastTok ':' seg = []
  · rw [if_pos (by simp [h]), if_pos h]
  · rw [if_neg (by simpa [List.isEmpty_iff] using h), if_neg h]

/-! ## Claim theorems -/

theorem getRepositoryInfo_ok (out : String) :
    getRepositoryInfo ⟨true, .ok out⟩ = .ok (resolveRemoteLines (remoteFetchLines out)) := rfl

theorem envOk_fails (c : String) : envOk.fails c = false := rfl

/-- C3 (code bug): for the remote listing `origin	git@gitlab.com:foo/bar.git (fetch)`
the code does NOT fail: regex R2 captures `git` (the SSH user) as the
"host", which passes the dot/gitlab/bitbucket guard, so resolution returns
`{owner: "foo", repo: "bar"}` — contradicting the code's own comment
"Skip if it looks like a non-GitHub host" and the claimed
`NoGitHubRemoteFound` outcome. -/
theorem gitlab_ssh_remote_resolves :
    getRepositoryInfo ⟨true, .ok "origin\tgit@gitlab.com:foo/bar.git (fetch)"⟩ =
      .ok (some ⟨"foo", "bar"⟩) := by decide

/-- C4 (amended): the host literal is matched case-sensitively (lowercase
`github.com`, with the unescaped dot matching any character). For every
remote listing whose first fetch line is
`origin	https://github.com/OWNER/REPO.git (fetch)` — OWNER nonempty
without `/`, REPO nonempty without `/`, `.` or whitespace — resolution
returns exactly `{owner: OWNER, repo: REPO}` with the `.git` suffix
stripped. -/
theorem github_host_match (o r : List Char) (out : String) (rest : List (List Char))
    (ho : o ≠ []) (ho2 : ∀ c ∈ o, c ≠ '/')
    (hr : r ≠ []) (hr2 : ∀ c ∈ r, c ≠ '/' ∧ jsWs c = false ∧ c ≠ '.')
    (hout : remoteFetchLines out = githubFetchLine o r :: rest) :
    getRepositoryInfo ⟨true, .ok out⟩ = .ok (some ⟨o.asString, r.asString⟩) := by
  rw [getRepositoryInfo_ok, hout]
  simp only [resolveRemoteLines]
  rw [findR1_githubFetchLine o r ho ho2 hr hr2]

theorem github_host_match_witness :
    remoteFetchLines "origin\thttps://github.com/foo/bar.git (fetch)" =
      [githubFetchLine "foo".toList "bar".toList] ∧
    getRepositoryInfo ⟨true, .ok "origin\thttps://github.com/foo/bar.git (fetch)"⟩ =
      .ok (some ⟨"foo", "bar"⟩) :=
  ⟨by decide, github_host_match "foo".toList "bar".toList _ []
    (by decide) (by decide) (by decide) (by decide) (by decide)⟩

/-- C4 counterexample: the claim says the host literal is case-insensitive,
but a remote whose only fetch line uses `GitHub.com` resolves to nothing
(the regex literal is lowercase and neither pattern matches), not to
`{owner: "foo", repo: "bar"}`. -/
theorem github_host_case_counterexample :
    getRepositoryInfo ⟨true, .ok "origin\thttps://GitHub.com/foo/bar.git (fetch)"⟩ = .ok none ∧
    (Except.ok (none : Option RepositoryInfo) : Except Unit (Option RepositoryInfo)) ≠
      .ok (some ⟨"foo", "bar"⟩) := by decide

/-- C5 (amended): a remote listing whose only fetch remote is
`git@my-alias:octocat/Hello-World.git (fetch)` resolves to
`{owner: "octocat", repo: "Hello-World"}`; and in general the owner
computed from the captured segment is its last colon-delimited token,
falling back to the whole segment when the segment contains no colon OR
when that last token is empty (segment ending in `:`, because the source
uses `split(':').pop() || match[2]` and `""` is falsy). -/
theorem ssh_alias_owner_rule :
    (∀ out : String,
      remoteFetchLines out = ["git@my-alias:octocat/Hello-World.git (fetch)".toList] →
      getRepositoryInfo ⟨true, .ok out⟩ = .ok (some ⟨"octocat", "Hello-World"⟩)) ∧
    (∀ seg : List Char,
      ownerOfSegment seg = if lastTok ':' seg = [] then seg else lastTok ':' seg) := by
  constructor
  · intro out hout
    rw [getRepositoryInfo_ok, hout]
    decide
  · exact ownerOfSegment_lastTok

theorem ssh_alias_owner_rule_witness :
    getRepositoryInfo ⟨true, .ok "git@my-alias:octocat/Hello-World.git (fetch)"⟩ =
      .ok (some ⟨"octocat", "Hello-World"⟩) :=
  ssh_alias_owner_rule.1 _ (by decide)

/-- C5 counterexample: for the fetch remote `x@a:/repo.git (fetch)` the
captured segment is `a:`, whose last colon-delimited token is empty; the
claim's rule predicts owner `""` (the fallback applies only when no colon
is present), but the code returns the whole segment `a:` as the owner. -/
theorem ssh_alias_owner_rule_counterexample :
    getRepositoryInfo ⟨true, .ok "x@a:/repo.git (fetch)"⟩ = .ok (some ⟨"a:", "repo"⟩) ∧
    lastTok ':' "a:".toList = [] ∧ ("a:" : String) ≠ "" := by decide

/-- C7 (amended): when the path is not a git repository, resolution fails
immediately without inspecting the remote listing (the result does not
depend on it), but the outcome is the same `null` the caller gets when no
GitHub remote is found — the two conditions are not distinguishable from
the returned value (only debug-log text differs). -/
theorem not_a_repo_outcome :
    (∀ remotes : Except Unit String, getRepositoryInfo ⟨false, remotes⟩ = .ok none) ∧
    (∀ remotes : Except Unit String,
      getRepositoryInfo ⟨false, remotes⟩ = getRepositoryInfo ⟨true, .ok ""⟩) :=
  ⟨fun _ => rfl, fun _ => rfl⟩

/-- C7 counterexample: the "not a repository" outcome equals the
"no GitHub remote found" outcome — both are the null result — even when
the (never inspected) remote listing names a perfectly good GitHub remote;
the claim's required distinguishability fails. -/
theorem not_a_repo_outcome_counterexample :
    getRepositoryInfo ⟨false, .ok "origin\thttps://github.com/foo/bar.git (fetch)"⟩ =
      getRepositoryInfo ⟨true, .ok ""⟩ ∧
    getRepositoryInfo ⟨false, .ok "origin\thttps://github.com/foo/bar.git (fetch)"⟩ =
      .ok none := by decide

/-- C9: whenever resolution succeeds, both returned fields are nonempty
strings: every regex capture group is a `+`-group (at least one character),
and the `split(':').pop() || match[2]` owner falls back to the nonempty
segment when the popped token is empty; every failure is the explicit null
result. -/
theorem resolution_nonempty_fields (env : GitEnv) (info : RepositoryInfo)
    (h : getRepositoryInfo env = .ok (some info)) : info.owner ≠ "" ∧ info.repo ≠ "" := by
  cases env with
  | mk rp rem =>
    cases rp
    · rw [show getRepositoryInfo ⟨false, rem⟩ = .ok none from rfl] at h
      simp at h
    · cases rem with
      | error e =>
        rw [show getRepositoryInfo ⟨true, .error e⟩ = .ok none from rfl] at h
        simp at h
      | ok out =>
        rw [getRepositoryInfo_ok] at h
        injection h with h
        exact resolveRemoteLines_fields _ _ h

theorem resolution_nonempty_fields_witness :
    getRepositoryInfo ⟨true, .ok "origin\thttps://github.com/foo/bar.git (fetch)"⟩ =
      .ok (some ⟨"foo", "bar"⟩) ∧
    (RepositoryInfo.mk "foo" "bar").owner ≠ "" ∧ (RepositoryInfo.mk "foo" "bar").repo ≠ "" :=
  ⟨by decide,
   resolution_nonempty_fields ⟨true, .ok "origin\thttps://github.com/foo/bar.git (fetch)"⟩
     ⟨"foo", "bar"⟩ (by decide)⟩

/-- C10: `getRepositoryInfo` is total at its public interface: for every
environment it returns a result rather than raising (the outer catch-all
turns resolver exceptions into null); in particular a non-repository path,
a throwing `git remote -v`, and an empty remote listing all yield null. -/
theorem getRepositoryInfo_total :
    (∀ env : GitEnv, ∃ res : Option RepositoryInfo, getRepositoryInfo env = .ok res) ∧
    (∀ remotes : Except Unit String, getRepositoryInfo ⟨false, remotes⟩ = .ok none) ∧
    getRepositoryInfo ⟨true, .error ()⟩ = .ok none ∧
    getRepositoryInfo ⟨true, .ok ""⟩ = .ok none := by
  refine ⟨fun env => ?_, fun remotes => rfl, rfl, rfl⟩
  cases env with
  | mk rp rem =>
    cases rp
    · exact ⟨none, rfl⟩
    · cases rem with
      | error e => exact ⟨none, rfl⟩
      | ok out => exact ⟨resolveRemoteLines (remoteFetchLines out), rfl⟩

/-- C1 (amended): for every fork PR, the standard-mode checkout uses the
fixed remote name `pr-remote` (not `pr-{n}`) with local branch
`pr-{n}-{r}`, while the github-style checkout uses remote `pr-{n}` and
local branch `pr-{n}` (not `{u}:{r}` — that string is only assembled for
the debug log), fetching the head ref from that remote. -/
theorem fork_checkout_naming (ri : RepositoryInfo) (pr : PRHead)
    (hfork : pr.headRepoFullName ≠ some (fullRepoName ri)) :
    stdRemoteName ri pr = "pr-remote" ∧
    stdLocalBranch pr = "pr-" ++ toString pr.number ++ "-" ++ pr.headRef ∧
    ghRemoteName pr = "pr-" ++ toString pr.number ∧
    ghLocalBranch pr = "pr-" ++ toString pr.number ∧
    ghFetchCmd pr = "git fetch " ++ ghRemoteName pr ++ " " ++ pr.headRef ∧
    ghTargetBranchName ri pr = jsTemplateOpt pr.headOwnerLogin ++ ":" ++ pr.headRef ∧
    checkoutPR ri pr envOk = ([stdAddCmd ri pr, stdFetchCmd ri pr, stdCreateCmd ri pr], .ok ()) ∧
    checkoutPRGitHubStyle ri pr envOk = ([ghAddCmd pr, ghFetchCmd pr, ghCreateCmd pr], .ok ()) := by
  have hrn : stdRemoteName ri pr = "pr-remote" := by rw [stdRemoteName, if_neg hfork]
  refine ⟨hrn, rfl, rfl, rfl, rfl, ?_, ?_, ?_⟩
  · rw [ghTargetBranchName, if_neg hfork]
  · simp [checkoutPR, hrn, envOk_fails]
  · simp [checkoutPRGitHubStyle, hfork, envOk_fails]

theorem fork_checkout_naming_witness :
    stdRemoteName ⟨"acme", "widgets"⟩
      ⟨42, "feature-x", some "contributor/widgets",
        some "https://github.com/contributor/widgets.git", some "contributor"⟩ = "pr-remote" ∧
    checkoutPRGitHubStyle ⟨"acme", "widgets"⟩
      ⟨42, "feature-x", some "contributor/widgets",
        some "https://github.com/contributor/widgets.git", some "contributor"⟩ envOk =
      (["git remote add pr-42 https://github.com/contributor/widgets.git",
        "git fetch pr-42 feature-x",
        "git checkout -b pr-42 pr-42/feature-x"], .ok ()) := by
  have h := fork_checkout_naming ⟨"acme", "widgets"⟩
    ⟨42, "feature-x", some "contributor/widgets",
      some "https://github.com/contributor/widgets.git", some "contributor"⟩ (by decide)
  exact ⟨h.1, h.2.2.2.2.2.2.2⟩

/-- C1 counterexample: at the specification's own example (PR number 42,
head ref `feature-x`, head owner `contributor`), the standard-mode remote
name is `pr-remote`, not `pr-42`, and the github-style local branch is
`pr-42`, not `contributor:feature-x`. -/
theorem fork_checkout_naming_counterexample :
    stdRemoteName ⟨"acme", "widgets"⟩
      ⟨42, "feature-x", some "contributor/widgets",
        some "https://github.com/contributor/widgets.git", some "contributor"⟩ = "pr-remote" ∧
    ("pr-remote" : String) ≠ "pr-42" ∧
    ghLocalBranch
      ⟨42, "feature-x", some "contributor/widgets",
        some "https://github.com/contributor/widgets.git", some "contributor"⟩ = "pr-42" ∧
    ("pr-42" : String) ≠ "contributor:feature-x" := by decide

/-- C2 (amended): for every same-repo PR in standard mode the checkout
fetches `headRef` from `origin` and registers no remote (null remote URL),
but the local branch is named `pr-{n}-{headRef}`, not `headRef`: the
`pr-{number}-{branch}` name of line 721 applies to same-repo PRs too. -/
theorem same_repo_standard_plan (ri : RepositoryInfo) (pr : PRHead)
    (hsame : pr.headRepoFullName = some (fullRepoName ri)) :
    stdRemoteName ri pr = "origin" ∧
    stdLocalBranch pr = "pr-" ++ toString pr.number ++ "-" ++ pr.headRef ∧
    stdFetchCmd ri pr = "git fetch origin " ++ pr.headRef ∧
    checkoutPR ri pr envOk = ([stdFetchCmd ri pr, stdCreateCmd ri pr], .ok ()) := by
  have hrn : stdRemoteName ri pr = "origin" := by rw [stdRemoteName, if_pos hsame]
  refine ⟨hrn, rfl, ?_, ?_⟩
  · rw [stdFetchCmd, hrn]
    rfl
  · simp [checkoutPR, hrn, envOk_fails]

theorem same_repo_standard_plan_witness :
    checkoutPR ⟨"acme", "widgets"⟩ ⟨7, "fix-123", some "acme/widgets",
        some "https://github.com/acme/widgets.git", some "acme"⟩ envOk =
      (["git fetch origin fix-123", "git checkout -b pr-7-fix-123 origin/fix-123"], .ok ()) :=
  (same_repo_standard_plan ⟨"acme", "widgets"⟩
    ⟨7, "fix-123", some "acme/widgets", some "https://github.com/acme/widgets.git", some "acme"⟩
    (by decide)).2.2.2

/-- C2 counterexample: for a same-repo PR with number 7 and head ref
`fix-123`, the standard checkout creates the local branch `pr-7-fix-123`
instead of checking the branch out under the upstream name `fix-123`. -/
theorem same_repo_standard_plan_counterexample :
    checkoutPR ⟨"acme", "widgets"⟩ ⟨7, "fix-123", some "acme/widgets",
        some "https://github.com/acme/widgets.git", some "acme"⟩ envOk =
      (["git fetch origin fix-123", "git checkout -b pr-7-fix-123 origin/fix-123"], .ok ()) ∧
    ("pr-7-fix-123" : String) ≠ "fix-123" := by decide

/-- C6 (amended): a fork PR with no clone URL does not make checkout
planning fail — there is no `MissingForkCloneUrl` check at all. The
standard checkout interpolates the missing value as the literal string
`undefined` and runs `git remote add pr-remote undefined`; the
github-style checkout substitutes the empty string, swallows both
remote-registration failures, and proceeds to fetch and branch creation. -/
theorem fork_missing_clone_url (ri : RepositoryInfo) (pr : PRHead) (env : ExecEnv)
    (hfork : pr.headRepoFullName ≠ some (fullRepoName ri)) (hurl : pr.headCloneUrl = none)
    (haf : env.fails (ghAddCmd pr) = true) (hsf : env.fails (ghSetCmd pr) = true)
    (hff : env.fails (ghFetchCmd pr) = false) (hcf : env.fails (ghCreateCmd pr) = false) :
    stdAddCmd ri pr = "git remote add pr-remote undefined" ∧
    (checkoutPR ri pr envOk).1.head? = some "git remote add pr-remote undefined" ∧
    ghRemoteUrl pr = "" ∧
    checkoutPRGitHubStyle ri pr env =
      ([ghAddCmd pr, ghSetCmd pr, ghFetchCmd pr, ghCreateCmd pr], .ok ()) := by
  have hrn : stdRemoteName ri pr = "pr-remote" := by rw [stdRemoteName, if_neg hfork]
  have hadd : stdAddCmd ri pr = "git remote add pr-remote undefined" := by
    rw [stdAddCmd, hrn, hurl]
    rfl
  refine ⟨hadd, ?_, by rw [ghRemoteUrl, hurl]; rfl, ?_⟩
  · simp [checkoutPR, hrn, envOk_fails, hadd]
  · simp [checkoutPRGitHubStyle, hfork, haf, hsf, hff, hcf]

theorem fork_missing_clone_url_witness :
    checkoutPRGitHubStyle ⟨"acme", "widgets"⟩ ⟨42, "feature-x", none, none, none⟩
      ⟨fun c => c == "git remote add pr-42 " || c == "git remote set-url pr-42 "⟩ =
      (["git remote add pr-42 ", "git remote set-url pr-42 ",
        "git fetch pr-42 feature-x", "git checkout -b pr-42 pr-42/feature-x"], .ok ()) :=
  (fork_missing_clone_url ⟨"acme", "widgets"⟩ ⟨42, "feature-x", none, none, none⟩
    ⟨fun c => c == "git remote add pr-42 " || c == "git remote set-url pr-42 "⟩
    (by decide) (by decide) (by decide) (by decide) (by decide) (by decide)).2.2.2

/-- C6 counterexample: with a fork PR whose head repository is gone
(null clone URL), the standard checkout does not fail with any
`MissingForkCloneUrl` error: it registers the remote with the URL string
`undefined` and completes successfully — a partial (indeed full) plan is
executed. -/
theorem fork_missing_clone_url_counterexample :
    checkoutPR ⟨"acme", "widgets"⟩ ⟨42, "feature-x", none, none, none⟩ envOk =
      (["git remote add pr-remote undefined", "git fetch pr-remote feature-x",
        "git checkout -b pr-42-feature-x pr-remote/feature-x"], .ok ()) ∧
    "git remote add pr-remote undefined" ∈
      (checkoutPR ⟨"acme", "widgets"⟩ ⟨42, "feature-x", none, none, none⟩ envOk).1 := by decide

/-- C8 (amended): when creating the planned local branch fails (branch
already exists), the github-style fork checkout checks the branch out and
force-resets it to `pr-{n}/{headRef}`; the standard checkout only checks
the existing branch out, with no reset. In both, the branch-creation
failure is swallowed and retried via checkout, and a failure of the retry
itself surfaces as an error. -/
theorem branch_exists_fallback (ri : RepositoryInfo) (pr : PRHead)
    (hfork : pr.headRepoFullName ≠ some (fullRepoName ri)) :
    (∀ env : ExecEnv,
      env.fails (stdAddCmd ri pr) = false → env.fails (stdFetchCmd ri pr) = false →
      env.fails (stdCreateCmd ri pr) = true → env.fails (stdCoCmd pr) = false →
      checkoutPR ri pr env =
        ([stdAddCmd ri pr, stdFetchCmd ri pr, stdCreateCmd ri pr, stdCoCmd pr], .ok ())) ∧
    (∀ env : ExecEnv,
      env.fails (ghAddCmd pr) = false → env.fails (ghFetchCmd pr) = false →
      env.fails (ghCreateCmd pr) = true → env.fails (ghCoCmd pr) = false →
      env.fails (ghResetCmd pr) = false →
      checkoutPRGitHubStyle ri pr env =
        ([ghAddCmd pr, ghFetchCmd pr, ghCreateCmd pr, ghCoCmd pr, ghResetCmd pr], .ok ())) ∧
    (∀ env : ExecEnv,
      env.fails (stdAddCmd ri pr) = false → env.fails (stdFetchCmd ri pr) = false →
      env.fails (stdCreateCmd ri pr) = true → env.fails (stdCoCmd pr) = true →
      (checkoutPR ri pr env).2 = .error ()) := by
  have hrn : stdRemoteName ri pr = "pr-remote" := by rw [stdRemoteName, if_neg hfork]
  refine ⟨fun env h1 h2 h3 h4 => ?_, fun env h1 h2 h3 h4 h5 => ?_, fun env h1 h2 h3 h4 => ?_⟩
  · simp [checkoutPR, hrn, h1, h2, h3, h4]
  · simp [checkoutPRGitHubStyle, hfork, h1, h2, h3, h4, h5]
  · simp [checkoutPR, hrn, h1, h2, h3, h4]

theorem branch_exists_fallback_witness :
    checkoutPR ⟨"acme", "widgets"⟩
      ⟨42, "feature-x", some "contributor/widgets",
        some "https://github.com/contributor/widgets.git", some "contributor"⟩
      ⟨fun c => c == "git checkout -b pr-42-feature-x pr-remote/feature-x"⟩ =
      (["git remote add pr-remote https://github.com/contributor/widgets.git",
        "git fetch pr-remote feature-x",
        "git checkout -b pr-42-feature-x pr-remote/feature-x",
        "git checkout pr-42-feature-x"], .ok ()) ∧
    checkoutPRGitHubStyle ⟨"acme", "widgets"⟩
      ⟨42, "feature-x", some "contributor/widgets",
        some "https://github.com/contributor/widgets.git", some "contributor"⟩
      ⟨fun c => c == "git checkout -b pr-42 pr-42/feature-x"⟩ =
      (["git remote add pr-42 https://github.com/contributor/widgets.git",
        "git fetch pr-42 feature-x",
        "git checkout -b pr-42 pr-42/feature-x",
        "git checkout pr-42",
        "git reset --hard pr-42/feature-x"], .ok ()) :=
  ⟨(branch_exists_fallback ⟨"acme", "widgets"⟩
      ⟨42, "feature-x", some "contributor/widgets",
        some "https://github.com/contributor/widgets.git", some "contributor"⟩ (by decide)).1
      ⟨fun c => c == "git checkout -b pr-42-feature-x pr-remote/feature-x"⟩
      (by decide) (by decide) (by decide) (by decide),
   (branch_exists_fallback ⟨"acme", "widgets"⟩
      ⟨42, "feature-x", some "contributor/widgets",
        some "https://github.com/contributor/widgets.git", some "contributor"⟩ (by decide)).2.1
      ⟨fun c => c == "git checkout -b pr-42 pr-42/feature-x"⟩
      (by decide) (by decide) (by decide) (by decide) (by decide)⟩

/-- C8 counterexample: in the standard checkout, when the planned local
branch already exists (branch creation fails), the executor merely checks
the branch out — no `git reset --hard` is issued, so the branch does NOT
end equal to the upstream ref as the claim requires of every checkout. -/
theorem branch_exists_fallback_counterexample :
    checkoutPR ⟨"acme", "widgets"⟩
      ⟨42, "feature-x", some "contributor/widgets",
        some "https://github.com/contributor/widgets.git", some "contributor"⟩
      ⟨fun c => c == "git checkout -b pr-42-feature-x pr-remote/feature-x"⟩ =
      (["git remote add pr-remote https://github.com/contributor/widgets.git",
        "git fetch pr-remote feature-x",
        "git checkout -b pr-42-feature-x pr-remote/feature-x",
        "git checkout pr-42-feature-x"], .ok ()) ∧
    "git reset --hard pr-remote/feature-x" ∉
      (checkoutPR ⟨"acme", "widgets"⟩
        ⟨42, "feature-x", some "contributor/widgets",
          some "https://github.com/contributor/widgets.git", some "contributor"⟩
        ⟨fun c => c == "git checkout -b pr-42-feature-x pr-remote/feature-x"⟩).1 := by decide
